import Mathlib

/-!
# boltdb-cpp : the size-routed memory pool

Shallow embedding of `include/boltdb/alloc/memory_pool.hpp`.

* `MemoryPool` is the class of that header. Its stateful members are the arena
  `_buffer` and the two trackers `_stack_tracker` and `_heap_tracker`; the two
  `std::pmr::polymorphic_allocator<Byte>` members are stateless handles on the
  trackers. `Byte` (declared in `boltdb/util/common.hpp`) is one byte wide, as
  `tests/alloc_test.cc` expects, so a request for `nbytes` objects reaches the
  tracker as a request for `nbytes` bytes.
* `MemoryResourceTracker` is declared in
  `boltdb/alloc/memory_resource_tracker.hpp`; it is modelled from sections 3,
  4.2 and 6 of the specification, and the arena from section 4.3.
* The process allocator (`std::pmr::get_default_resource()`) is the environment:
  every `allocate` call carries the answer the process allocator gives if it is
  asked (`none` when it throws `std::bad_alloc`).
* `std::size_t` is 64 bits wide: the `size_t` sums of `bytes_allocated()` and
  `bytes_deallocated()` are taken modulo `2 ^ 64`.
* The outcome of a release for a pair that is not live is fixed neither by the
  source nor by the specification (sections 3, 4.1 and 9): the tracker may or
  may not check the pair, and the release below it may return, throw or not
  return at all. Every `deallocate` call therefore carries that outcome as an
  argument, so that no behaviour is fixed for such a pair; the pair of a live
  allocation is released normally (`release_outcome`).
* A member function that throws is a function into `Except`; the caller keeps
  the pool it had.

The definitions come first, the theorems after them.
-/

namespace boltdb

/-- An address. -/
abbrev Ptr := Nat

/-- The width of `std::size_t` arithmetic: values live in `[0, 2 ^ 64)`. -/
def SIZE_MOD : Nat := 2 ^ 64

/-- The ways a call can fail to return normally: the two failures of section 7
of the specification, `OutOfMemory` (`std::bad_alloc`) and `InvalidArgument`
(`std::invalid_argument`), and `Aborted`, a call that does not return at all
(undefined behaviour below the pool, for instance `::operator delete` on a
pointer the process allocator did not hand out). -/
inductive PoolError where
  | OutOfMemory
  | InvalidArgument
  | Aborted
  deriving DecidableEq

/-! ## The usage tracker (specification, section 4.2) -/

/-- Modelled from the spec: the class `MemoryResourceTracker` of
`boltdb/alloc/memory_resource_tracker.hpp` (absent from the sources). Section 3:
a tracker holds three counters, bytes allocated, bytes deallocated and the
high-water mark. Whether it also checks a released pair against the outstanding
allocations is left open; such a check is part of the outcome `below` that
`deallocate` receives. -/
structure MemoryResourceTracker where
  bytes_allocated : Nat
  bytes_deallocated : Nat
  high_water : Nat
  deriving DecidableEq

namespace MemoryResourceTracker

/-- Modelled from the spec: a tracker right after construction, all counters
zero. -/
def zero : MemoryResourceTracker :=
  { bytes_allocated := 0, bytes_deallocated := 0, high_water := 0 }

/-- Modelled from the spec: the counter update of `MemoryResourceTracker`
allocation (section 4.2): bytes_allocated grows by `n`, then the high-water mark
becomes `max(current, bytes_allocated - bytes_deallocated)`. The difference is
an integer difference; as the mark is never negative, taking the maximum with
a negative difference leaves the mark alone, which is what the truncated
subtraction of `Nat` gives. -/
def count_allocate (t : MemoryResourceTracker) (n : Nat) : MemoryResourceTracker :=
  { bytes_allocated := t.bytes_allocated + n
    bytes_deallocated := t.bytes_deallocated
    high_water := max t.high_water (t.bytes_allocated + n - t.bytes_deallocated) }

/-- Modelled from the spec: `MemoryResourceTracker` allocation (section 4.2).
`upstream` is the outcome of the delegated upstream call. When upstream fails
the failure is propagated and no counter reflects the request; otherwise the
counters are updated and the upstream pointer is returned. -/
def allocate (t : MemoryResourceTracker) (n : Nat) (upstream : Option Ptr) :
    Except PoolError (Ptr × MemoryResourceTracker) :=
  match upstream with
  | none => .error .OutOfMemory
  | some p => .ok (p, t.count_allocate n)

/-- Modelled from the spec: the counter update of `MemoryResourceTracker`
deallocation (section 3): the cumulative bytes_deallocated counter grows by
`n`. -/
def count_deallocate (t : MemoryResourceTracker) (n : Nat) : MemoryResourceTracker :=
  { t with bytes_deallocated := t.bytes_deallocated + n }

/-- Modelled from the spec: `MemoryResourceTracker` deallocation (sections 4.1
and 4.2). `below` is the outcome of everything the tracker does before it
touches its counters: its own check of the pair `(p, n)`, if it makes one, and
the release delegated upstream. When that fails the failure is propagated and
no counter changes; the counter is updated only once the upstream call has
succeeded. -/
def deallocate (t : MemoryResourceTracker) (_p : Ptr) (n : Nat)
    (below : Except PoolError Unit) : Except PoolError MemoryResourceTracker :=
  match below with
  | .error e => .error e
  | .ok _ => .ok (t.count_deallocate n)

/-- Modelled from the spec: `MemoryResourceTracker::dump` (section 6): one line
`<allocated bytes>, <deallocated bytes>, <high-water mark>` appended to the
stream. -/
def dump (t : MemoryResourceTracker) (os : String) : String :=
  os ++ toString t.bytes_allocated ++ ", " ++ toString t.bytes_deallocated ++ ", "
    ++ toString t.high_water ++ "\n"

/-- The integer value of `bytes_allocated - bytes_deallocated`. -/
def current (t : MemoryResourceTracker) : Int :=
  (t.bytes_allocated : Int) - (t.bytes_deallocated : Int)

end MemoryResourceTracker

/-! ## The arena (specification, section 4.3) -/

/-- Modelled from the spec: the arena `std::pmr::monotonic_buffer_resource`
behind the small-request tracker (section 4.3): a buffer of `capacity` bytes at
address `base`, of which the first `offset` bytes are handed out. -/
structure MonotonicBuffer where
  base : Ptr
  capacity : Nat
  offset : Nat
  deriving DecidableEq

namespace MonotonicBuffer

/-- Modelled from the spec: arena allocation (section 4.3). If the remaining
capacity is at least `n` the block at the current offset is returned and the
offset advances by `n` (bytes have alignment 1, so nothing is rounded);
otherwise the request overflows to the process allocator, whose answer is
`heap`, and the arena itself does not change. -/
def allocate (b : MonotonicBuffer) (n : Nat) (heap : Option Ptr) :
    Option Ptr × MonotonicBuffer :=
  if n ≤ b.capacity - b.offset then
    (some (b.base + b.offset), { b with offset := b.offset + n })
  else
    (heap, b)

/-- Modelled from the spec: arena deallocation (section 4.3) never moves the
offset back. -/
def deallocate (b : MonotonicBuffer) (_p : Ptr) (_n : Nat) : MonotonicBuffer := b

end MonotonicBuffer

/-! ## The pool (`memory_pool.hpp`) -/

/-- The stateful members of `class MemoryPool`. -/
structure MemoryPool where
  _buffer : MonotonicBuffer
  _stack_tracker : MemoryResourceTracker
  _heap_tracker : MemoryResourceTracker
  deriving DecidableEq

namespace MemoryPool

/-- The constant `static constexpr int kPageSize = (1 << 10)`. -/
def kPageSize : Nat := 1 <<< 10

/-- The constant `static constexpr int kInitBufferSize = (1 << 20)`. -/
def kInitBufferSize : Nat := 1 <<< 20

/-- The constructor `MemoryPool()`: an arena of `kInitBufferSize` bytes (placed
at address `base`) and two trackers with all counters zero. -/
def fresh (base : Ptr) : MemoryPool :=
  { _buffer := { base := base, capacity := kInitBufferSize, offset := 0 }
    _stack_tracker := MemoryResourceTracker.zero
    _heap_tracker := MemoryResourceTracker.zero }

/-- The private member `is_small_size`: `nbytes < (kPageSize / 4)`. -/
def is_small_size (nbytes : Nat) : Bool :=
  decide (nbytes < kPageSize / 4)

/-- The call `_stack_pool.allocate(nbytes)`: the stack tracker, whose upstream
is the arena `_buffer`. -/
def stack_pool_allocate (pool : MemoryPool) (nbytes : Nat) (heap : Option Ptr) :
    Except PoolError (Ptr × MemoryPool) :=
  let up := pool._buffer.allocate nbytes heap
  match pool._stack_tracker.allocate nbytes up.1 with
  | .error e => .error e
  | .ok (p, t) => .ok (p, { pool with _buffer := up.2, _stack_tracker := t })

/-- The call `_heap_pool.allocate(nbytes)`: the heap tracker, whose upstream is
the process allocator. -/
def heap_pool_allocate (pool : MemoryPool) (nbytes : Nat) (heap : Option Ptr) :
    Except PoolError (Ptr × MemoryPool) :=
  match pool._heap_tracker.allocate nbytes heap with
  | .error e => .error e
  | .ok (p, t) => .ok (p, { pool with _heap_tracker := t })

/-- The member `Byte* allocate(std::size_t nbytes)`. -/
def allocate (pool : MemoryPool) (nbytes : Nat) (heap : Option Ptr) :
    Except PoolError (Ptr × MemoryPool) :=
  if is_small_size nbytes then
    stack_pool_allocate pool nbytes heap
  else
    heap_pool_allocate pool nbytes heap

/-- The call `_stack_pool.deallocate(p, nbytes)`: the stack tracker, whose
upstream is the arena `_buffer`; `below` is the outcome met below the pool. -/
def stack_pool_deallocate (pool : MemoryPool) (p : Ptr) (nbytes : Nat)
    (below : Except PoolError Unit) : Except PoolError MemoryPool :=
  match pool._stack_tracker.deallocate p nbytes below with
  | .error e => .error e
  | .ok t => .ok { pool with
      _buffer := pool._buffer.deallocate p nbytes
      _stack_tracker := t }

/-- The call `_heap_pool.deallocate(p, nbytes)`: the heap tracker, whose
upstream is the process allocator; `below` is the outcome met below the pool. -/
def heap_pool_deallocate (pool : MemoryPool) (p : Ptr) (nbytes : Nat)
    (below : Except PoolError Unit) : Except PoolError MemoryPool :=
  match pool._heap_tracker.deallocate p nbytes below with
  | .error e => .error e
  | .ok t => .ok { pool with _heap_tracker := t }

/-- The member `void deallocate(Byte* p, std::size_t nbytes)`. -/
def deallocate (pool : MemoryPool) (p : Ptr) (nbytes : Nat)
    (below : Except PoolError Unit) : Except PoolError MemoryPool :=
  if is_small_size nbytes then
    stack_pool_deallocate pool p nbytes below
  else
    heap_pool_deallocate pool p nbytes below

/-- The member `std::size_t bytes_allocated() const`. -/
def bytes_allocated (pool : MemoryPool) : Nat :=
  (pool._stack_tracker.bytes_allocated + pool._heap_tracker.bytes_allocated) % SIZE_MOD

/-- The member `std::size_t bytes_deallocated() const`. -/
def bytes_deallocated (pool : MemoryPool) : Nat :=
  (pool._stack_tracker.bytes_deallocated + pool._heap_tracker.bytes_deallocated) % SIZE_MOD

/-- The member `std::string statistic() const`; the stream starts empty. -/
def statistic (pool : MemoryPool) : String :=
  let oss := ""
  let oss := oss ++ "=== stack allocation info ===\n"
  let oss := pool._stack_tracker.dump oss
  let oss := oss ++ "=== heap allocation info ===\n"
  let oss := pool._heap_tracker.dump oss
  oss

/-- The `std::size_t` expression `bytes_allocated() - bytes_deallocated()`. -/
def bytes_in_use (pool : MemoryPool) : Nat :=
  (pool.bytes_allocated + SIZE_MOD - pool.bytes_deallocated) % SIZE_MOD

/-! ## Call sequences -/

/-- An allocation-only run, as in the loop of `tests/alloc_test.cc`: the calls
`allocate(n)` are made one after the other, each request `(n, heap)` carrying
the answer of the process allocator; the run stops at the first failure and
otherwise returns the pointers and the final pool. -/
def allocate_all (pool : MemoryPool) :
    List (Nat × Option Ptr) → Except PoolError (List Ptr × MemoryPool)
  | [] => .ok ([], pool)
  | (n, heap) :: rest =>
    match pool.allocate n heap with
    | .error e => .error e
    | .ok (p, pool1) =>
      match allocate_all pool1 rest with
      | .error e => .error e
      | .ok (ps, pool2) => .ok (p :: ps, pool2)

end MemoryPool

/-- A block of memory: the pair `(pointer, size)` of an allocation. -/
structure Block where
  p : Nat
  nbytes : Nat
  deriving DecidableEq

/-- One call on the pool. An `allocate` call carries the answer of the process
allocator. A `deallocate` call carries `stray`, the outcome that the release
meets below the pool in case its pair is not a live allocation. -/
inductive Call where
  | allocate (nbytes : Nat) (heap : Option Ptr)
  | deallocate (p : Ptr) (nbytes : Nat) (stray : Except PoolError Unit)

/-- The outcome that the release of `(p, n)` meets below the pool when `live`
are the live allocations. The pair of a live allocation is released normally:
the tracker has nothing to object to, the arena ignores the release and the
process allocator takes back what it handed out. For any other pair the
outcome is `stray`. -/
def release_outcome (live : List Block) (p : Ptr) (n : Nat)
    (stray : Except PoolError Unit) : Except PoolError Unit :=
  if (⟨p, n⟩ : Block) ∈ live then .ok () else stray

namespace MemoryPool

/-- The pool after one call, `live` being the allocations live before it. A
call that does not return normally leaves the pool as it was (after a call
that does not return at all the program makes no further call, so the runs of
the program are among those of the model). -/
def apply (pool : MemoryPool) (live : List Block) : Call → MemoryPool
  | .allocate n heap =>
    match pool.allocate n heap with
    | .ok (_, pool1) => pool1
    | .error _ => pool
  | .deallocate p n stray =>
    match pool.deallocate p n (release_outcome live p n stray) with
    | .ok pool1 => pool1
    | .error _ => pool

/-- The allocations still live after one call made on `pool`, given those live
before it: a successful `allocate(n)` returning `p` adds `(p, n)`, a
`deallocate(p, n)` removes one occurrence of `(p, n)`, if there is one. -/
def live_step (pool : MemoryPool) (live : List Block) : Call → List Block
  | .allocate n heap =>
    match pool.allocate n heap with
    | .ok (p, _) => ⟨p, n⟩ :: live
    | .error _ => live
  | .deallocate p n _ => live.erase ⟨p, n⟩

/-- The pool after a sequence of calls. -/
def run : MemoryPool → List Block → List Call → MemoryPool
  | pool, _, [] => pool
  | pool, live, c :: cs => run (pool.apply live c) (live_step pool live c) cs

/-- The allocations still live after a sequence of calls. -/
def live_run : MemoryPool → List Block → List Call → List Block
  | _, live, [] => live
  | pool, live, c :: cs => live_run (pool.apply live c) (live_step pool live c) cs

end MemoryPool

/-- Two blocks share no byte. -/
def Block.disjoint (a b : Block) : Prop :=
  a.nbytes = 0 ∨ b.nbytes = 0 ∨ a.p + a.nbytes ≤ b.p ∨ b.p + b.nbytes ≤ a.p

/-- A set of blocks that can be live together in a 64-bit address space: no
two of them share a byte, none starts at the null address and each ends at or
before address `2 ^ 64`. -/
def AddressOk (blocks : List Block) : Prop :=
  blocks.Pairwise Block.disjoint ∧ ∀ b ∈ blocks, 0 < b.p ∧ b.p + b.nbytes ≤ SIZE_MOD

instance (a b : Block) : Decidable (Block.disjoint a b) := by
  unfold Block.disjoint
  exact inferInstance

instance (bs : List Block) : Decidable (AddressOk bs) := by
  unfold AddressOk
  exact inferInstance

/-- The ways one call of the pool can move a tracker: not at all, by the
counter update of an allocation, or by that of a deallocation. -/
def TrackerStep (t t1 : MemoryResourceTracker) : Prop :=
  t1 = t ∨ (∃ n, t1 = t.count_allocate n) ∨ (∃ n, t1 = t.count_deallocate n)

/-! ## Theorems: routing and single calls -/

namespace MemoryPool

theorem kPageSize_eq : kPageSize = 1024 := by decide

theorem kInitBufferSize_eq : kInitBufferSize = 1048576 := by decide

theorem is_small_size_iff (n : Nat) : is_small_size n = true ↔ n < 256 := by
  simp [is_small_size, kPageSize_eq]

theorem is_small_size_false_iff (n : Nat) : is_small_size n = false ↔ 256 ≤ n := by
  simp [is_small_size, kPageSize_eq]

theorem allocate_small {pool pool1 : MemoryPool} {n : Nat} {heap : Option Ptr} {p : Ptr}
    (hn : n < 256) (h : pool.allocate n heap = .ok (p, pool1)) :
    pool1._stack_tracker = pool._stack_tracker.count_allocate n ∧
      pool1._heap_tracker = pool._heap_tracker := by
  have hs : is_small_size n = true := (is_small_size_iff n).2 hn
  unfold allocate at h
  rw [if_pos hs] at h
  unfold stack_pool_allocate MemoryResourceTracker.allocate at h
  simp only at h
  split at h
  · cases h
  · rename_i q t heq
    split at heq
    · cases heq
    · cases heq
      cases h
      exact ⟨rfl, rfl⟩

theorem allocate_large {pool pool1 : MemoryPool} {n : Nat} {heap : Option Ptr} {p : Ptr}
    (hn : 256 ≤ n) (h : pool.allocate n heap = .ok (p, pool1)) :
    pool1._heap_tracker = pool._heap_tracker.count_allocate n ∧
      pool1._stack_tracker = pool._stack_tracker ∧ pool1._buffer = pool._buffer := by
  have hs : is_small_size n = false := (is_small_size_false_iff n).2 hn
  unfold allocate at h
  rw [hs] at h
  simp only [Bool.false_eq_true, if_false] at h
  unfold heap_pool_allocate MemoryResourceTracker.allocate at h
  split at h
  · cases h
  · rename_i q t heq
    split at heq
    · cases heq
    · cases heq
      cases h
      exact ⟨rfl, rfl, rfl⟩

theorem size_sub_add (a d n : Nat) :
    ((a + n) % SIZE_MOD + SIZE_MOD - (d + n) % SIZE_MOD) % SIZE_MOD
      = (a % SIZE_MOD + SIZE_MOD - d % SIZE_MOD) % SIZE_MOD := by
  have hM : SIZE_MOD = 18446744073709551616 := by decide
  rw [hM]
  omega

theorem bytes_in_use_congr {pool2 pool : MemoryPool} (n : Nat)
    (ha : pool2._stack_tracker.bytes_allocated + pool2._heap_tracker.bytes_allocated
      = pool._stack_tracker.bytes_allocated + pool._heap_tracker.bytes_allocated + n)
    (hd : pool2._stack_tracker.bytes_deallocated + pool2._heap_tracker.bytes_deallocated
      = pool._stack_tracker.bytes_deallocated + pool._heap_tracker.bytes_deallocated + n) :
    pool2.bytes_in_use = pool.bytes_in_use := by
  simp only [bytes_in_use, bytes_allocated, bytes_deallocated, ha, hd]
  exact size_sub_add _ _ n

theorem release_outcome_live {live : List Block} {p : Ptr} {n : Nat}
    (h : (⟨p, n⟩ : Block) ∈ live) (stray : Except PoolError Unit) :
    release_outcome live p n stray = .ok () := by
  simp [release_outcome, h]

theorem deallocate_small_ok (pool : MemoryPool) (p : Ptr) {n : Nat} (hn : n < 256) :
    pool.deallocate p n (.ok ()) = .ok { pool with
      _stack_tracker := pool._stack_tracker.count_deallocate n } := by
  have hs : is_small_size n = true := (is_small_size_iff n).2 hn
  simp [deallocate, hs, stack_pool_deallocate, MonotonicBuffer.deallocate,
    MemoryResourceTracker.deallocate]

theorem deallocate_large_ok (pool : MemoryPool) (p : Ptr) {n : Nat} (hn : 256 ≤ n) :
    pool.deallocate p n (.ok ()) = .ok { pool with
      _heap_tracker := pool._heap_tracker.count_deallocate n } := by
  have hs : is_small_size n = false := (is_small_size_false_iff n).2 hn
  simp [deallocate, hs, heap_pool_deallocate, MemoryResourceTracker.deallocate]

/-- The pool adds no check of its own and hides no failure: a release that
fails below the pool fails in the same way at the pool. -/
theorem deallocate_error (pool : MemoryPool) (p : Ptr) (n : Nat) (e : PoolError) :
    pool.deallocate p n (.error e) = .error e := by
  by_cases hs : is_small_size n = true
  · simp [deallocate, hs, stack_pool_deallocate, MemoryResourceTracker.deallocate]
  · simp [deallocate, hs, heap_pool_deallocate, MemoryResourceTracker.deallocate]

/-- C2: a successful `allocate(n)` is accounted on exactly one tracker. When
`n < kPageSize / 4` the stack tracker has `n` more bytes allocated and the heap
tracker is untouched; otherwise the heap tracker has `n` more bytes allocated
and the stack tracker is untouched. -/
theorem allocate_accounted_on_one_tracker (pool pool1 : MemoryPool) (n : Nat)
    (heap : Option Ptr) (p : Ptr) (h : pool.allocate n heap = .ok (p, pool1)) :
    (n < kPageSize / 4 →
        pool1._stack_tracker.bytes_allocated = pool._stack_tracker.bytes_allocated + n ∧
        pool1._heap_tracker = pool._heap_tracker) ∧
    (¬ n < kPageSize / 4 →
        pool1._heap_tracker.bytes_allocated = pool._heap_tracker.bytes_allocated + n ∧
        pool1._stack_tracker = pool._stack_tracker) := by
  rw [kPageSize_eq]
  constructor
  · intro hn
    obtain ⟨h1, h2⟩ := allocate_small hn h
    exact ⟨by rw [h1]; rfl, h2⟩
  · intro hn
    obtain ⟨h1, h2, _⟩ := allocate_large (by omega) h
    exact ⟨by rw [h1]; rfl, h2⟩

/-- Witness of C2: `allocate(300)` on a new pool succeeds when the process
allocator answers, and adds 300 to the heap tracker only. -/
theorem allocate_accounted_on_one_tracker_witness :
    ∃ pool1, (fresh 4096).allocate 300 (some 2000000) = .ok (2000000, pool1) ∧
      ¬ 300 < kPageSize / 4 ∧
      pool1._heap_tracker.bytes_allocated = 0 + 300 ∧
      pool1._stack_tracker = MemoryResourceTracker.zero :=
  ⟨_, rfl, by decide,
    ((allocate_accounted_on_one_tracker (fresh 4096) _ 300 (some 2000000) 2000000 rfl).2
      (by decide))⟩

/-- C3: the routing threshold is `kPageSize / 4 = 1024 / 4 = 256` and the
comparison is strict: `is_small_size n` holds exactly when `n ≤ 255`; size 255
is small and `allocate(255)` takes the stack branch, size 256 is not small and
`allocate(256)` takes the heap branch. -/
theorem routing_threshold :
    kPageSize = 1024 ∧ kPageSize / 4 = 256 ∧
    (∀ n, is_small_size n = true ↔ n ≤ 255) ∧
    is_small_size 255 = true ∧ is_small_size 256 = false ∧
    (∀ pool heap, allocate pool 255 heap = stack_pool_allocate pool 255 heap) ∧
    (∀ pool heap, allocate pool 256 heap = heap_pool_allocate pool 256 heap) := by
  refine ⟨by decide, by decide, ?_, by decide, by decide, ?_, ?_⟩
  · intro n
    rw [is_small_size_iff]
    omega
  · intro pool heap
    simp [allocate, is_small_size, kPageSize_eq]
  · intro pool heap
    simp [allocate, is_small_size, kPageSize_eq]

/-- C5: round trip. After a successful `p = allocate(n)` the pair `(p, n)` is
live, and the call `deallocate(p, n)` returns normally, whatever the other live
allocations are and whatever the environment does with pairs that are not
live. It is charged to the tracker that counted the allocation: for `n < 256`
the stack tracker has `n` more bytes allocated and `n` more bytes deallocated
and the heap tracker is as before the allocation; for `n ≥ 256` the roles are
exchanged. The `size_t` difference `bytes_allocated() - bytes_deallocated()` is
back to its earlier value. -/
theorem allocate_deallocate_round_trip (pool pool1 : MemoryPool) (n : Nat)
    (heap : Option Ptr) (p : Ptr) (live : List Block) (stray : Except PoolError Unit)
    (h : pool.allocate n heap = .ok (p, pool1)) :
    ∃ pool2, pool1.deallocate p n (release_outcome (⟨p, n⟩ :: live) p n stray) = .ok pool2 ∧
      (n < 256 →
        pool2._stack_tracker.bytes_allocated = pool._stack_tracker.bytes_allocated + n ∧
        pool2._stack_tracker.bytes_deallocated = pool._stack_tracker.bytes_deallocated + n ∧
        pool2._heap_tracker = pool._heap_tracker) ∧
      (¬ n < 256 →
        pool2._heap_tracker.bytes_allocated = pool._heap_tracker.bytes_allocated + n ∧
        pool2._heap_tracker.bytes_deallocated = pool._heap_tracker.bytes_deallocated + n ∧
        pool2._stack_tracker = pool._stack_tracker) ∧
      pool2.bytes_in_use = pool.bytes_in_use := by
  have hlive : release_outcome (⟨p, n⟩ :: live) p n stray = .ok () :=
    release_outcome_live (List.mem_cons_self _ _) stray
  rw [hlive]
  by_cases hn : n < 256
  · obtain ⟨h1, h2⟩ := allocate_small hn h
    refine ⟨_, deallocate_small_ok pool1 p hn, ?_, ?_, ?_⟩
    · intro _
      refine ⟨?_, ?_, ?_⟩ <;>
        simp [h1, h2, MemoryResourceTracker.count_deallocate,
          MemoryResourceTracker.count_allocate]
    · intro hc
      exact absurd hn hc
    · apply bytes_in_use_congr n <;>
        simp only [h1, h2, MemoryResourceTracker.count_deallocate,
          MemoryResourceTracker.count_allocate] <;> omega
  · have hn2 : 256 ≤ n := by omega
    obtain ⟨h1, h2, _⟩ := allocate_large hn2 h
    refine ⟨_, deallocate_large_ok pool1 p hn2, ?_, ?_, ?_⟩
    · intro hc
      exact absurd hc hn
    · intro _
      refine ⟨?_, ?_, ?_⟩ <;>
        simp [h1, h2, MemoryResourceTracker.count_deallocate,
          MemoryResourceTracker.count_allocate]
    · apply bytes_in_use_congr n <;>
        simp only [h1, h2, MemoryResourceTracker.count_deallocate,
          MemoryResourceTracker.count_allocate] <;> omega

/-- Witness of C5: a request of 8 bytes on a new pool, then its release, in an
environment that would refuse a pair that is not live. -/
theorem allocate_deallocate_round_trip_witness :
    ∃ pool1, (fresh 4096).allocate 8 none = .ok (4096, pool1) ∧
      ∃ pool2, pool1.deallocate 4096 8
          (release_outcome [⟨4096, 8⟩] 4096 8 (.error .InvalidArgument)) = .ok pool2 ∧
        pool2._stack_tracker.bytes_allocated = 8 ∧
        pool2._stack_tracker.bytes_deallocated = 8 ∧
        pool2._heap_tracker = MemoryResourceTracker.zero ∧
        pool2.bytes_in_use = 0 := by
  refine ⟨_, rfl, ?_⟩
  obtain ⟨pool2, h2, hs, _, hu⟩ :=
    allocate_deallocate_round_trip (fresh 4096) _ 8 none 4096 [] (.error .InvalidArgument) rfl
  obtain ⟨ha, hd, hh⟩ := hs (by decide)
  exact ⟨pool2, h2, ha, hd, hh, hu⟩

end MemoryPool

/-- Pairwise disjoint blocks cover as many addresses as the sum of their sizes. -/
theorem exists_cover (bs : List Block) (hd : bs.Pairwise Block.disjoint) :
    ∃ S : Finset Nat, S.card = (bs.map Block.nbytes).sum ∧
      ∀ x ∈ S, ∃ b ∈ bs, b.p ≤ x ∧ x < b.p + b.nbytes := by
  induction bs with
  | nil => exact ⟨∅, by simp, by simp⟩
  | cons b bs ih =>
    rw [List.pairwise_cons] at hd
    obtain ⟨S, hcard, hS⟩ := ih hd.2
    have hdisj : Disjoint (Finset.Ico b.p (b.p + b.nbytes)) S := by
      rw [Finset.disjoint_left]
      intro x hx hxS
      rw [Finset.mem_Ico] at hx
      obtain ⟨c, hc, hc1, hc2⟩ := hS x hxS
      have := hd.1 c hc
      unfold Block.disjoint at this
      omega
    refine ⟨Finset.Ico b.p (b.p + b.nbytes) ∪ S, ?_, ?_⟩
    · rw [Finset.card_union_of_disjoint hdisj, hcard, Nat.card_Ico]
      simp
    · intro x hx
      rw [Finset.mem_union] at hx
      rcases hx with hx | hx
      · rw [Finset.mem_Ico] at hx
        exact ⟨b, by simp, hx.1, hx.2⟩
      · obtain ⟨c, hc, hc1, hc2⟩ := hS x hx
        exact ⟨c, by simp [hc], hc1, hc2⟩

/-- Blocks that are live together in a 64-bit address space have a total size
below `2 ^ 64`. -/
theorem AddressOk.sum_lt {bs : List Block} (h : AddressOk bs) :
    (bs.map Block.nbytes).sum < SIZE_MOD := by
  obtain ⟨S, hcard, hS⟩ := exists_cover bs h.1
  have hsub : S ⊆ Finset.Ico 1 SIZE_MOD := by
    intro x hx
    obtain ⟨b, hb, h1, h2⟩ := hS x hx
    have := h.2 b hb
    rw [Finset.mem_Ico]
    omega
  have hle := Finset.card_le_card hsub
  rw [Nat.card_Ico, hcard] at hle
  have hM : 0 < SIZE_MOD := by decide
  omega

namespace MemoryPool

theorem allocate_counters {pool pool1 : MemoryPool} {n : Nat} {heap : Option Ptr} {p : Ptr}
    (h : pool.allocate n heap = .ok (p, pool1)) :
    pool1._stack_tracker.bytes_allocated + pool1._heap_tracker.bytes_allocated
      = pool._stack_tracker.bytes_allocated + pool._heap_tracker.bytes_allocated + n := by
  by_cases hn : n < 256
  · obtain ⟨h1, h2⟩ := allocate_small hn h
    simp only [h1, h2, MemoryResourceTracker.count_allocate]
    omega
  · obtain ⟨h1, h2, _⟩ := allocate_large (by omega) h
    simp only [h1, h2, MemoryResourceTracker.count_allocate]
    omega

theorem allocate_all_cons_ok {pool pool2 : MemoryPool} {n : Nat} {heap : Option Ptr}
    {rest : List (Nat × Option Ptr)} {ptrs : List Ptr}
    (h : allocate_all pool ((n, heap) :: rest) = .ok (ptrs, pool2)) :
    ∃ p pool1 ps, pool.allocate n heap = .ok (p, pool1) ∧
      allocate_all pool1 rest = .ok (ps, pool2) ∧ ptrs = p :: ps := by
  unfold allocate_all at h
  split at h
  · cases h
  · rename_i p pool1 h1
    split at h
    · cases h
    · rename_i ps pool3 h2
      cases h
      exact ⟨p, pool1, ps, h1, h2, rfl⟩

theorem allocate_all_counters (reqs : List (Nat × Option Ptr)) :
    ∀ (pool pool2 : MemoryPool) (ptrs : List Ptr),
      allocate_all pool reqs = .ok (ptrs, pool2) →
      pool2._stack_tracker.bytes_allocated + pool2._heap_tracker.bytes_allocated
        = pool._stack_tracker.bytes_allocated + pool._heap_tracker.bytes_allocated
          + (reqs.map Prod.fst).sum ∧ ptrs.length = reqs.length := by
  induction reqs with
  | nil =>
    intro pool pool2 ptrs h
    simp only [allocate_all, Except.ok.injEq, Prod.mk.injEq] at h
    obtain ⟨h1, h2⟩ := h
    subst h1 h2
    simp
  | cons r rest ih =>
    intro pool pool2 ptrs h
    obtain ⟨n, heap⟩ := r
    obtain ⟨p, pool1, ps, h1, h2, h3⟩ := allocate_all_cons_ok h
    obtain ⟨ih1, ih2⟩ := ih pool1 pool2 ps h2
    have hc := allocate_counters h1
    subst h3
    simp only [List.map_cons, List.sum_cons, List.length_cons]
    omega

/-- C1: starting from a newly constructed pool, after any sequence of
successful `allocate` calls with sizes `n1 .. nk` the allocated counters of the
two trackers add up to `n1 + ... + nk`, and `bytes_allocated()` returns that sum
(the returned blocks are live together in the 64-bit address space, so the
`size_t` addition does not wrap). The order of the calls does not matter: a
successful run of the same sizes in another order ends with the same total. -/
theorem bytes_allocated_eq_sum (base : Ptr) (reqs : List (Nat × Option Ptr))
    (ptrs : List Ptr) (pool2 : MemoryPool)
    (h : allocate_all (fresh base) reqs = .ok (ptrs, pool2)) :
    pool2._stack_tracker.bytes_allocated + pool2._heap_tracker.bytes_allocated
      = (reqs.map Prod.fst).sum ∧
    (AddressOk (List.zipWith Block.mk ptrs (reqs.map Prod.fst)) →
      pool2.bytes_allocated = (reqs.map Prod.fst).sum) ∧
    (∀ (base3 : Ptr) (reqs3 : List (Nat × Option Ptr)) (ptrs3 : List Ptr) (pool3 : MemoryPool),
      (reqs3.map Prod.fst).Perm (reqs.map Prod.fst) →
      allocate_all (fresh base3) reqs3 = .ok (ptrs3, pool3) →
      pool3._stack_tracker.bytes_allocated + pool3._heap_tracker.bytes_allocated
        = pool2._stack_tracker.bytes_allocated + pool2._heap_tracker.bytes_allocated) := by
  obtain ⟨h1, h2⟩ := allocate_all_counters reqs (fresh base) pool2 ptrs h
  have hsum : pool2._stack_tracker.bytes_allocated + pool2._heap_tracker.bytes_allocated
      = (reqs.map Prod.fst).sum := by
    rw [h1]
    simp [fresh, MemoryResourceTracker.zero]
  refine ⟨hsum, ?_, ?_⟩
  · intro hmem
    have hlt := hmem.sum_lt
    have hmap : (List.zipWith Block.mk ptrs (reqs.map Prod.fst)).map Block.nbytes
        = reqs.map Prod.fst := by
      apply List.ext_getElem
      · simp [h2]
      · intro i hi1 hi2
        simp
    rw [hmap] at hlt
    unfold bytes_allocated
    rw [hsum]
    exact Nat.mod_eq_of_lt hlt
  · intro base3 reqs3 ptrs3 pool3 hperm h3
    obtain ⟨h4, _⟩ := allocate_all_counters reqs3 (fresh base3) pool3 ptrs3 h3
    rw [h4, hsum, hperm.sum_eq]
    simp [fresh, MemoryResourceTracker.zero]

/-- Witness of C1: the run of `tests/alloc_test.cc`, sizes 1 to 10, gives 55. -/
theorem bytes_allocated_eq_sum_witness :
    ∃ ptrs pool2,
      allocate_all (fresh 4096)
        [(1, none), (2, none), (3, none), (4, none), (5, none), (6, none), (7, none),
          (8, none), (9, none), (10, none)] = .ok (ptrs, pool2) ∧
      AddressOk (List.zipWith Block.mk ptrs [1, 2, 3, 4, 5, 6, 7, 8, 9, 10]) ∧
      pool2.bytes_allocated = 55 :=
  ⟨_, _, rfl, by decide,
    (bytes_allocated_eq_sum 4096
      [(1, none), (2, none), (3, none), (4, none), (5, none), (6, none), (7, none),
        (8, none), (9, none), (10, none)] _ _ rfl).2.1 (by decide)⟩

end MemoryPool

namespace MemoryPool

theorem run_nil (pool : MemoryPool) (live : List Block) : pool.run live [] = pool := rfl

theorem run_cons (pool : MemoryPool) (live : List Block) (c : Call) (cs : List Call) :
    pool.run live (c :: cs) = (pool.apply live c).run (live_step pool live c) cs := rfl

theorem live_run_cons (pool : MemoryPool) (live : List Block) (c : Call) (cs : List Call) :
    live_run pool live (c :: cs) = live_run (pool.apply live c) (live_step pool live c) cs :=
  rfl

theorem run_append (cs ds : List Call) :
    ∀ (pool : MemoryPool) (live : List Block),
      pool.run live (cs ++ ds) = (pool.run live cs).run (live_run pool live cs) ds := by
  induction cs with
  | nil =>
    intro pool live
    rfl
  | cons c cs ih =>
    intro pool live
    rw [List.cons_append, run_cons, run_cons, live_run_cons, ih]

theorem apply_allocate_ok {pool pool1 : MemoryPool} {n : Nat} {heap : Option Ptr} {p : Ptr}
    (live : List Block) (h : pool.allocate n heap = .ok (p, pool1)) :
    pool.apply live (.allocate n heap) = pool1 := by
  simp [apply, h]

theorem apply_allocate_error {pool : MemoryPool} {n : Nat} {heap : Option Ptr} {e : PoolError}
    (live : List Block) (h : pool.allocate n heap = .error e) :
    pool.apply live (.allocate n heap) = pool := by
  simp [apply, h]

theorem apply_deallocate_error (pool : MemoryPool) (live : List Block) (p : Ptr) (n : Nat)
    (stray : Except PoolError Unit) {e : PoolError}
    (h : release_outcome live p n stray = .error e) :
    pool.apply live (.deallocate p n stray) = pool := by
  simp [apply, h, deallocate_error]

theorem apply_deallocate_small (pool : MemoryPool) (live : List Block) (p : Ptr) {n : Nat}
    (stray : Except PoolError Unit) (hn : n < 256)
    (h : release_outcome live p n stray = .ok ()) :
    pool.apply live (.deallocate p n stray) = { pool with
      _stack_tracker := pool._stack_tracker.count_deallocate n } := by
  simp [apply, h, deallocate_small_ok pool p hn]

theorem apply_deallocate_large (pool : MemoryPool) (live : List Block) (p : Ptr) {n : Nat}
    (stray : Except PoolError Unit) (hn : 256 ≤ n)
    (h : release_outcome live p n stray = .ok ()) :
    pool.apply live (.deallocate p n stray) = { pool with
      _heap_tracker := pool._heap_tracker.count_deallocate n } := by
  simp [apply, h, deallocate_large_ok pool p hn]

end MemoryPool

theorem TrackerStep.high_water_le {t t1 : MemoryResourceTracker} (h : TrackerStep t t1) :
    t.high_water ≤ t1.high_water := by
  rcases h with h | ⟨n, h⟩ | ⟨n, h⟩ <;> subst h
  · exact le_refl _
  · exact le_max_left _ _
  · exact le_refl _

/-- After one step the mark is either the old mark, with the current usage not
above it, or the current usage itself. -/
theorem TrackerStep.peak {t t1 : MemoryResourceTracker} (h : TrackerStep t t1)
    (hb : t.current ≤ (t.high_water : Int)) :
    t1.current ≤ (t1.high_water : Int) ∧
      (t1.high_water = t.high_water ∨ (t1.high_water : Int) = t1.current) := by
  rcases h with h | ⟨n, h⟩ | ⟨n, h⟩ <;> subst h
  · exact ⟨hb, Or.inl rfl⟩
  · simp only [MemoryResourceTracker.current, MemoryResourceTracker.count_allocate] at hb ⊢
    rcases le_total t.high_water (t.bytes_allocated + n - t.bytes_deallocated) with hle | hle
    · rw [max_eq_right hle]
      by_cases hpos : t.bytes_deallocated ≤ t.bytes_allocated + n
      · refine ⟨by omega, Or.inr (by omega)⟩
      · refine ⟨by omega, Or.inl (by omega)⟩
    · rw [max_eq_left hle]
      refine ⟨by omega, Or.inl rfl⟩
  · refine ⟨?_, Or.inl rfl⟩
    simp only [MemoryResourceTracker.current, MemoryResourceTracker.count_deallocate] at hb ⊢
    omega

namespace MemoryPool

theorem apply_tracker_step (pool : MemoryPool) (live : List Block) (c : Call) :
    TrackerStep pool._stack_tracker (pool.apply live c)._stack_tracker ∧
      TrackerStep pool._heap_tracker (pool.apply live c)._heap_tracker := by
  cases c with
  | allocate n heap =>
    cases h : pool.allocate n heap with
    | error e =>
      rw [apply_allocate_error live h]
      exact ⟨Or.inl rfl, Or.inl rfl⟩
    | ok r =>
      obtain ⟨p, pool1⟩ := r
      rw [apply_allocate_ok live h]
      by_cases hn : n < 256
      · obtain ⟨h1, h2⟩ := allocate_small hn h
        exact ⟨Or.inr (Or.inl ⟨n, h1⟩), Or.inl h2⟩
      · obtain ⟨h1, h2, _⟩ := allocate_large (by omega) h
        exact ⟨Or.inl h2, Or.inr (Or.inl ⟨n, h1⟩)⟩
  | deallocate p n stray =>
    cases hout : release_outcome live p n stray with
    | error e =>
      rw [apply_deallocate_error pool live p n stray hout]
      exact ⟨Or.inl rfl, Or.inl rfl⟩
    | ok u =>
      by_cases hn : n < 256
      · rw [apply_deallocate_small pool live p stray hn hout]
        exact ⟨Or.inr (Or.inr ⟨n, rfl⟩), Or.inl rfl⟩
      · rw [apply_deallocate_large pool live p stray (by omega) hout]
        exact ⟨Or.inl rfl, Or.inr (Or.inr ⟨n, rfl⟩)⟩

/-- For a tracker `sel` of the pool that starts with its mark equal to its
current usage, the mark after a run bounds the usage after every initial part
of the run and is the usage after one of them. -/
theorem peak_of_run (sel : MemoryPool → MemoryResourceTracker)
    (hsel : ∀ pool live c, TrackerStep (sel pool) (sel (pool.apply live c)))
    (pool0 : MemoryPool) (live0 : List Block)
    (h0 : ((sel pool0).high_water : Int) = (sel pool0).current)
    (calls : List Call) :
    (∀ pre suf, calls = pre ++ suf →
      (sel (pool0.run live0 pre)).current
        ≤ ((sel (pool0.run live0 calls)).high_water : Int)) ∧
    (∃ pre suf, calls = pre ++ suf ∧
      (sel (pool0.run live0 pre)).current
        = ((sel (pool0.run live0 calls)).high_water : Int)) := by
  induction calls using List.reverseRecOn with
  | nil =>
    constructor
    · intro pre suf h
      have hp : pre = [] := (List.append_eq_nil.1 h.symm).1
      subst hp
      rw [run_nil, h0]
    · exact ⟨[], [], rfl, by rw [run_nil, h0]⟩
  | append_singleton cs c ih =>
    obtain ⟨ihb, pre0, suf0, hsplit, hatt⟩ := ih
    have hstep := hsel (pool0.run live0 cs) (live_run pool0 live0 cs) c
    have hrun : pool0.run live0 (cs ++ [c])
        = (pool0.run live0 cs).apply (live_run pool0 live0 cs) c := by
      rw [run_append]
      rfl
    have hcur := ihb cs [] (by simp)
    obtain ⟨hb1, hcase⟩ := hstep.peak hcur
    have hmono := hstep.high_water_le
    rw [hrun]
    constructor
    · intro pre suf h
      rcases List.eq_nil_or_concat suf with hnil | ⟨suf1, d, hd⟩
      · subst hnil
        rw [List.append_nil] at h
        subst h
        rw [hrun]
        exact hb1
      · subst hd
        rw [List.concat_eq_append, ← List.append_assoc] at h
        have h2 := List.append_inj_left' h rfl
        have := ihb pre suf1 h2
        have hm : ((sel (pool0.run live0 cs)).high_water : Int)
            ≤ ((sel ((pool0.run live0 cs).apply (live_run pool0 live0 cs) c)).high_water
              : Int) := by
          exact_mod_cast hmono
        omega
    · rcases hcase with hsame | hnew
      · refine ⟨pre0, suf0 ++ [c], by rw [hsplit, List.append_assoc], ?_⟩
        rw [hatt, hsame]
      · refine ⟨cs ++ [c], [], by simp, ?_⟩
        rw [hrun, hnew]

theorem fresh_stack_peak (base : Ptr) :
    (((fresh base)._stack_tracker).high_water : Int) = ((fresh base)._stack_tracker).current := by
  simp [fresh, MemoryResourceTracker.zero, MemoryResourceTracker.current]

theorem fresh_heap_peak (base : Ptr) :
    (((fresh base)._heap_tracker).high_water : Int) = ((fresh base)._heap_tracker).current := by
  simp [fresh, MemoryResourceTracker.zero, MemoryResourceTracker.current]

/-- C9: for each tracker of the pool, no call lowers the high-water mark, and
after any sequence of calls on a new pool the mark is the maximum, over the
initial parts of the sequence, of the integer `bytes_allocated -
bytes_deallocated` of that tracker: it bounds the value after every initial
part and is the value after one of them. This holds whatever the releases of
pairs that are not live meet below the pool. -/
theorem high_water_is_running_maximum :
    (∀ (pool : MemoryPool) (live : List Block) (c : Call),
      pool._stack_tracker.high_water ≤ (pool.apply live c)._stack_tracker.high_water ∧
      pool._heap_tracker.high_water ≤ (pool.apply live c)._heap_tracker.high_water) ∧
    (∀ (base : Ptr) (pre suf : List Call),
      ((fresh base).run [] pre)._stack_tracker.current
        ≤ (((fresh base).run [] (pre ++ suf))._stack_tracker.high_water : Int) ∧
      ((fresh base).run [] pre)._heap_tracker.current
        ≤ (((fresh base).run [] (pre ++ suf))._heap_tracker.high_water : Int)) ∧
    (∀ (base : Ptr) (calls : List Call),
      (∃ pre suf, calls = pre ++ suf ∧
        ((fresh base).run [] pre)._stack_tracker.current
          = (((fresh base).run [] calls)._stack_tracker.high_water : Int)) ∧
      (∃ pre suf, calls = pre ++ suf ∧
        ((fresh base).run [] pre)._heap_tracker.current
          = (((fresh base).run [] calls)._heap_tracker.high_water : Int))) := by
  refine ⟨?_, ?_, ?_⟩
  · intro pool live c
    obtain ⟨hs, hh⟩ := apply_tracker_step pool live c
    exact ⟨hs.high_water_le, hh.high_water_le⟩
  · intro base pre suf
    exact ⟨(peak_of_run (fun q => q._stack_tracker)
        (fun q l c => (apply_tracker_step q l c).1)
        (fresh base) [] (fresh_stack_peak base) (pre ++ suf)).1 pre suf rfl,
      (peak_of_run (fun q => q._heap_tracker)
        (fun q l c => (apply_tracker_step q l c).2)
        (fresh base) [] (fresh_heap_peak base) (pre ++ suf)).1 pre suf rfl⟩
  · intro base calls
    exact ⟨(peak_of_run (fun q => q._stack_tracker)
        (fun q l c => (apply_tracker_step q l c).1)
        (fresh base) [] (fresh_stack_peak base) calls).2,
      (peak_of_run (fun q => q._heap_tracker)
        (fun q l c => (apply_tracker_step q l c).2)
        (fresh base) [] (fresh_heap_peak base) calls).2⟩

/-- C7: `statistic()` is the stack header line, the dump of the stack tracker
(its allocated bytes, deallocated bytes and high-water mark), the heap header
line and the dump of the heap tracker, in this order; for instance after
`allocate(8)`, `allocate(300)` and the release of the first block the text is
the four lines shown. The method is `const`: it is a function of the pool that
returns the text only. -/
theorem statistic_layout :
    (∀ pool : MemoryPool,
      pool.statistic
        = "=== stack allocation info ===\n" ++ pool._stack_tracker.dump ""
          ++ "=== heap allocation info ===\n" ++ pool._heap_tracker.dump "" ∧
      pool._stack_tracker.dump ""
        = toString pool._stack_tracker.bytes_allocated ++ ", "
          ++ toString pool._stack_tracker.bytes_deallocated ++ ", "
          ++ toString pool._stack_tracker.high_water ++ "\n" ∧
      pool._heap_tracker.dump ""
        = toString pool._heap_tracker.bytes_allocated ++ ", "
          ++ toString pool._heap_tracker.bytes_deallocated ++ ", "
          ++ toString pool._heap_tracker.high_water ++ "\n") ∧
    ((fresh 4096).run [] [Call.allocate 8 none, Call.allocate 300 (some 2000000),
        Call.deallocate 4096 8 (.ok ())]).statistic
      = "=== stack allocation info ===\n8, 8, 8\n=== heap allocation info ===\n300, 0, 300\n" := by
  refine ⟨fun pool => ⟨?_, ?_, ?_⟩, by decide⟩
  · simp [statistic, MemoryResourceTracker.dump, String.append_assoc]
  · simp [MemoryResourceTracker.dump, String.append_assoc]
  · simp [MemoryResourceTracker.dump, String.append_assoc]

/-- A small request is served whenever the arena has room or the process
allocator answers. -/
theorem allocate_small_eq (pool : MemoryPool) {n : Nat} (hn : n < 256) (heap : Option Ptr) :
    (n ≤ pool._buffer.capacity - pool._buffer.offset →
      pool.allocate n heap = .ok (pool._buffer.base + pool._buffer.offset,
        { pool with
          _buffer := { pool._buffer with offset := pool._buffer.offset + n }
          _stack_tracker := pool._stack_tracker.count_allocate n })) ∧
    (¬ n ≤ pool._buffer.capacity - pool._buffer.offset →
      ∀ q, heap = some q →
        pool.allocate n heap = .ok (q,
          { pool with _stack_tracker := pool._stack_tracker.count_allocate n })) := by
  have hs : is_small_size n = true := (is_small_size_iff n).2 hn
  constructor
  · intro hfit
    simp [allocate, hs, stack_pool_allocate, MonotonicBuffer.allocate, hfit,
      MemoryResourceTracker.allocate]
  · intro hfull q hq
    subst hq
    simp [allocate, hs, stack_pool_allocate, MonotonicBuffer.allocate, hfull,
      MemoryResourceTracker.allocate]

/-- A large request is served whenever the process allocator answers. -/
theorem allocate_large_eq (pool : MemoryPool) {n : Nat} (hn : 256 ≤ n) (q : Ptr) :
    pool.allocate n (some q) = .ok (q,
      { pool with _heap_tracker := pool._heap_tracker.count_allocate n }) := by
  have hs : is_small_size n = false := (is_small_size_false_iff n).2 hn
  simp [allocate, hs, heap_pool_allocate, MemoryResourceTracker.allocate]

/-- When the process allocator answers, `allocate` returns a pointer. -/
theorem allocate_succeeds (pool : MemoryPool) (n : Nat) (q : Ptr) :
    ∃ p pool1, pool.allocate n (some q) = .ok (p, pool1) := by
  by_cases hn : n < 256
  · by_cases hfit : n ≤ pool._buffer.capacity - pool._buffer.offset
    · exact ⟨_, _, (allocate_small_eq pool hn (some q)).1 hfit⟩
    · exact ⟨_, _, (allocate_small_eq pool hn (some q)).2 hfit q rfl⟩
  · exact ⟨_, _, allocate_large_eq pool (by omega) q⟩

/-- When the process allocator answers every request, the whole run returns. -/
theorem allocate_all_succeeds (reqs : List (Nat × Option Ptr)) :
    ∀ (pool : MemoryPool), (∀ r ∈ reqs, ∃ q, r.2 = some q) →
      ∃ ptrs pool2, allocate_all pool reqs = .ok (ptrs, pool2) := by
  induction reqs with
  | nil =>
    intro pool _
    exact ⟨_, _, rfl⟩
  | cons r rest ih =>
    intro pool hall
    obtain ⟨n, heap⟩ := r
    obtain ⟨q, hq⟩ := hall (n, heap) (by simp)
    simp only at hq
    subst hq
    obtain ⟨p, pool1, h1⟩ := allocate_succeeds pool n q
    obtain ⟨ps, pool2, h2⟩ := ih pool1 (fun r hr => hall r (by simp [hr]))
    exact ⟨p :: ps, pool2, by simp [allocate_all, h1, h2]⟩

theorem allocate_all_take (reqs : List (Nat × Option Ptr)) :
    ∀ (pool pool2 : MemoryPool) (ptrs : List Ptr) (k : Nat),
      allocate_all pool reqs = .ok (ptrs, pool2) →
      ∃ ptrs1 pool1, allocate_all pool (reqs.take k) = .ok (ptrs1, pool1) := by
  induction reqs with
  | nil =>
    intro pool pool2 ptrs k _
    exact ⟨[], pool, by simp [allocate_all]⟩
  | cons r rest ih =>
    intro pool pool2 ptrs k h
    obtain ⟨n, heap⟩ := r
    cases k with
    | zero => exact ⟨[], pool, by simp [allocate_all]⟩
    | succ k =>
      obtain ⟨p, pool1, ps, h1, h2, _⟩ := allocate_all_cons_ok h
      obtain ⟨ps1, pool3, h3⟩ := ih pool1 pool2 ps k h2
      exact ⟨p :: ps1, pool3, by simp [allocate_all, h1, h3]⟩

theorem allocate_all_small (reqs : List (Nat × Option Ptr)) :
    ∀ (pool pool2 : MemoryPool) (ptrs : List Ptr),
      (∀ r ∈ reqs, r.1 < 256) → allocate_all pool reqs = .ok (ptrs, pool2) →
      pool2._heap_tracker = pool._heap_tracker ∧
      pool2._stack_tracker.bytes_allocated
        = pool._stack_tracker.bytes_allocated + (reqs.map Prod.fst).sum := by
  induction reqs with
  | nil =>
    intro pool pool2 ptrs _ h
    simp only [allocate_all, Except.ok.injEq, Prod.mk.injEq] at h
    obtain ⟨_, h2⟩ := h
    subst h2
    simp
  | cons r rest ih =>
    intro pool pool2 ptrs hsmall h
    obtain ⟨n, heap⟩ := r
    obtain ⟨p, pool1, ps, h1, h2, _⟩ := allocate_all_cons_ok h
    have hn : n < 256 := hsmall (n, heap) (by simp)
    obtain ⟨a1, a2⟩ := allocate_small hn h1
    obtain ⟨i1, i2⟩ := ih pool1 pool2 ps (fun r hr => hsmall r (by simp [hr])) h2
    refine ⟨i1.trans a2, ?_⟩
    rw [i2, a1]
    simp only [MemoryResourceTracker.count_allocate, List.map_cons, List.sum_cons]
    omega

/-- C6: routing does not look at the arena. In a run of successful `allocate`
calls whose sizes are all below the threshold, started on any pool, after each
of the calls the heap tracker is what it was and the stack tracker has counted
every request made so far, however large the cumulative size is. In
particular a small request that no longer fits in the arena is served by the
process allocator and is still counted on the stack tracker. -/
theorem small_requests_counted_on_stack_tracker :
    (∀ (pool pool2 : MemoryPool) (reqs : List (Nat × Option Ptr)) (ptrs : List Ptr),
      (∀ r ∈ reqs, r.1 < kPageSize / 4) →
      allocate_all pool reqs = .ok (ptrs, pool2) →
      ∀ k, ∃ ptrs1 pool1, allocate_all pool (reqs.take k) = .ok (ptrs1, pool1) ∧
        pool1._heap_tracker = pool._heap_tracker ∧
        pool1._stack_tracker.bytes_allocated
          = pool._stack_tracker.bytes_allocated + ((reqs.take k).map Prod.fst).sum) ∧
    (∀ (pool : MemoryPool) (n : Nat) (q : Ptr),
      n < kPageSize / 4 → pool._buffer.capacity - pool._buffer.offset < n →
      ∃ pool1, pool.allocate n (some q) = .ok (q, pool1) ∧
        pool1._heap_tracker = pool._heap_tracker ∧
        pool1._stack_tracker.bytes_allocated = pool._stack_tracker.bytes_allocated + n) := by
  constructor
  · intro pool pool2 reqs ptrs hsmall h k
    rw [kPageSize_eq] at hsmall
    obtain ⟨ptrs1, pool1, h1⟩ := allocate_all_take reqs pool pool2 ptrs k h
    obtain ⟨e1, e2⟩ := allocate_all_small (reqs.take k) pool pool1 ptrs1
      (fun r hr => hsmall r (List.mem_of_mem_take hr)) h1
    exact ⟨ptrs1, pool1, h1, e1, e2⟩
  · intro pool n q hn hfull
    rw [kPageSize_eq] at hn
    exact ⟨_, (allocate_small_eq pool hn (some q)).2 (by omega) q rfl, rfl, rfl⟩

/-- Witness of C6: 4200 requests of 255 bytes on a new pool, 1071000 bytes in
all, more than the 1048576 bytes of the arena; and one request of 255 bytes on
a pool whose arena has 16 bytes left. -/
theorem small_requests_counted_on_stack_tracker_witness :
    (∀ r ∈ List.replicate 4200 (255, some 5000000), r.1 < kPageSize / 4) ∧
    kInitBufferSize < ((List.replicate 4200 ((255 : Nat), some 5000000)).map Prod.fst).sum ∧
    (∃ ptrs1 pool1,
      allocate_all (fresh 4096) (List.replicate 4200 (255, some 5000000)) = .ok (ptrs1, pool1) ∧
      pool1._heap_tracker = MemoryResourceTracker.zero ∧
      pool1._stack_tracker.bytes_allocated = 1071000) ∧
    (∃ pool1,
      ({ fresh 4096 with
          _buffer := { base := 4096, capacity := kInitBufferSize,
                       offset := kInitBufferSize - 16 } } : MemoryPool).allocate 255
        (some 5000000) = .ok (5000000, pool1) ∧
      pool1._heap_tracker = MemoryResourceTracker.zero ∧
      pool1._stack_tracker.bytes_allocated = 0 + 255) := by
  have hsmall : ∀ r ∈ List.replicate 4200 ((255 : Nat), (some 5000000 : Option Ptr)),
      r.1 < kPageSize / 4 := by
    intro r hr
    rw [List.eq_of_mem_replicate hr]
    decide
  obtain ⟨ptrs, pool2, h⟩ := allocate_all_succeeds
    (List.replicate 4200 ((255 : Nat), (some 5000000 : Option Ptr))) (fresh 4096)
    (fun r hr => ⟨5000000, by rw [List.eq_of_mem_replicate hr]⟩)
  have hsum : ((List.replicate 4200 ((255 : Nat), (some 5000000 : Option Ptr))).map
      Prod.fst).sum = 1071000 := by
    rw [List.map_replicate, List.sum_replicate, smul_eq_mul]
    rfl
  have htake : (List.replicate 4200 ((255 : Nat), (some 5000000 : Option Ptr))).take 4200
      = List.replicate 4200 (255, some 5000000) :=
    List.take_of_length_le (by rw [List.length_replicate])
  have hk := small_requests_counted_on_stack_tracker.1 (fresh 4096) pool2 _ ptrs hsmall h 4200
  rw [htake, hsum] at hk
  obtain ⟨ptrs1, pool1, h1, e1, e2⟩ := hk
  refine ⟨hsmall, ?_, ⟨ptrs1, pool1, h1, e1, e2.trans (by decide)⟩, ?_⟩
  · rw [hsum]
    decide
  · exact small_requests_counted_on_stack_tracker.2 _ 255 5000000 (by decide) (by decide)

end MemoryPool
end boltdb
